import Mathlib

/-!
Verification of the AutoFormFiller RAG backend (backend_python/server.py)
against its natural-language specification.

The Python source is shallowly embedded: pure string/list manipulations
become Lean functions over `List Char` / `String`, numpy vector arithmetic
is modelled over an arbitrary linear ordered commutative ring of scores
(`ℚ` as the dense model of real scores, `ℤ` for kernel-computable
witnesses), the external capabilities (sentence-transformers
encoder, Ollama LLM) are oracles passed in explicitly, and the process-wide
mutable globals (`documents`, `embeddings`, `vector_db_initialized`, the
pickle cache) become an explicit state record threaded through the
operations.  `np.argsort` is modelled as a stable ascending sort of the
index list (numpy's documented behaviour for stable kind, and its observed
behaviour on the small arrays that arise here); the code reverses it and
takes a prefix.  Python regular expressions used by the fallback extractor
are implemented as bespoke deterministic matchers that reproduce the
leftmost-match, greedy semantics of the concrete patterns in the source.
-/

/-! ## Python string primitives -/

/-- The characters Python's `str.strip()` removes: space, tab, newline,
carriage return, vertical tab, form feed. -/
def isPyWs (c : Char) : Bool :=
  c = ' ' || c = '\t' || c = '\n' || c = '\r' || c = Char.ofNat 11 || c = Char.ofNat 12

/-- Python `str.strip()` on a character list. -/
def pyStripL (s : List Char) : List Char :=
  ((s.dropWhile isPyWs).reverse.dropWhile isPyWs).reverse

/-- Python `str.strip()`. -/
def pyStrip (s : String) : String :=
  String.mk (pyStripL s.data)

/-- Python `str.lower()` restricted to ASCII (all inputs exercised here are
ASCII; `str.lower` agrees with ASCII lowercasing on them). -/
def toLowerC (c : Char) : Char :=
  if 65 ≤ c.toNat ∧ c.toNat ≤ 90 then Char.ofNat (c.toNat + 32) else c

/-- Python `str.lower()` on a character list. -/
def pyLowerL (s : List Char) : List Char := s.map toLowerC

/-- Python `str.lower()`. -/
def pyLower (s : String) : String := String.mk (pyLowerL s.data)

/-- Python `pat in s` (substring containment) on character lists. -/
def hasSub (pat : List Char) : List Char → Bool
  | [] => pat.isEmpty
  | c :: t => pat.isPrefixOf (c :: t) || hasSub pat t

/-- Python `pat in s` (substring containment) on strings. -/
def strContains (s pat : String) : Bool := hasSub pat.data s.data

/-- Python slicing `s[a:b]` with int indices (negative indices count from
the end, out-of-range indices are clamped). -/
def pySliceZ (s : List Char) (a b : ℤ) : List Char :=
  let n : ℤ := s.length
  let a' : ℤ := if a < 0 then max 0 (n + a) else min a n
  let b' : ℤ := if b < 0 then max 0 (n + b) else min b n
  (s.drop a'.toNat).take (b'.toNat - a'.toNat)

/-- Python `str.split()` with no argument: split on whitespace runs,
dropping empty pieces. -/
def pyWordsL : List Char → List Char → List (List Char)
  | [], acc => if acc = [] then [] else [acc.reverse]
  | c :: t, acc =>
    if isPyWs c then
      (if acc = [] then pyWordsL t [] else acc.reverse :: pyWordsL t [])
    else pyWordsL t (c :: acc)

/-- Python `str.split()` with no argument, entry point. -/
def pyWords (s : List Char) : List (List Char) := pyWordsL s []

/-- Python `str.split('.')`: split on every dot, keeping empty pieces. -/
def splitDotL : List Char → List (List Char)
  | [] => [[]]
  | c :: t =>
    let r := splitDotL t
    if c = '.' then [] :: r
    else
      match r with
      | [] => [[c]]
      | h :: t' => (c :: h) :: t'

/-- Python `str.join`: `joinSepStr sep [a, b, c] = a ++ sep ++ b ++ sep ++ c`. -/
def joinSepStr (sep : String) : List String → String
  | [] => ""
  | [x] => x
  | x :: xs => x ++ sep ++ joinSepStr sep xs

/-! ## chunk_text (server.py lines 138-152)

The `while start < len(text)` loop is embedded with explicit fuel so that
the non-terminating parameter regime (`overlap >= size`, claim C10) is
expressible: `none` means the fuel was exhausted with the loop guard still
true.  `start` is an integer exactly as in Python (the step
`chunk_size - overlap` can be negative there). -/

def CHUNK_SIZE : ℕ := 1000
def CHUNK_OVERLAP : ℕ := 200
def TOP_K : ℕ := 3

/-- One `while start < len(text)` loop of `chunk_text`, fuelled. -/
def chunkLoop (text : List Char) (size overlap : ℕ) :
    ℕ → ℤ → List (List Char) → Option (List (List Char))
  | 0, start, acc =>
    if start < (text.length : ℤ) then none else some acc.reverse
  | fuel + 1, start, acc =>
    if start < (text.length : ℤ) then
      let endPos : ℤ := min (start + size) text.length
      let c := pyStripL (pySliceZ text start endPos)
      chunkLoop text size overlap fuel (start + ((size : ℤ) - overlap))
        (if c = [] then acc else c :: acc)
    else some acc.reverse

/-- `chunk_text` with explicit fuel; `none` means the loop was still
running when the fuel ran out. -/
def chunkTextFuel (text : String) (size overlap fuel : ℕ) : Option (List String) :=
  (chunkLoop text.data size overlap fuel 0 []).map (fun l => l.map String.mk)

/-- `chunk_text(text, chunk_size, overlap)`: `text.length + 1` fuel is
sufficient whenever `overlap < size` (proved below). -/
def chunk_text (text : String) (size overlap : ℕ) : List String :=
  (chunkTextFuel text size overlap (text.length + 1)).getD []

/-- The spec's description of chunking (section 4.1), stated as a closed
form: the trimmed sliding windows `text[i*step : i*step+size]` for every
start below the text length, empty windows dropped.  Used to compare the
loop in the source against the spec's words (claim C7). -/
def chunkWindowsSpecL (text : List Char) (size overlap : ℕ) : List (List Char) :=
  (List.range text.length).filterMap (fun i =>
    let start := i * (size - overlap)
    if start < text.length then
      let c := pyStripL ((text.drop start).take size)
      if c = [] then none else some c
    else none)

/-- String-level version of `chunkWindowsSpecL`. -/
def chunkWindowsSpec (text : String) (size overlap : ℕ) : List String :=
  (chunkWindowsSpecL text.data size overlap).map String.mk

/-! ## Character classes used by the fallback extractor's regular expressions -/

/-- `[A-Z]`. -/
def isUpperC (c : Char) : Bool := 65 ≤ c.toNat && c.toNat ≤ 90

/-- `[a-z]`. -/
def isLowerChr (c : Char) : Bool := 97 ≤ c.toNat && c.toNat ≤ 122

/-- `\d` over ASCII. -/
def isDigitC (c : Char) : Bool := 48 ≤ c.toNat && c.toNat ≤ 57

/-- `[a-zA-Z]`. -/
def isAlphaC (c : Char) : Bool := isUpperC c || isLowerChr c

/-- Parse one `[A-Z][a-z]+` token (greedy; deterministic because `[a-z]`
is disjoint from every character that may legally follow). -/
def pTok : List Char → Option (List Char × List Char)
  | [] => none
  | c :: rest =>
    if isUpperC c then
      let lows := rest.takeWhile isLowerChr
      if lows = [] then none else some (c :: lows, rest.dropWhile isLowerChr)
    else none

/-- Parse one `\s+` run (greedy). -/
def pWs1 (s : List Char) : Option (List Char × List Char) :=
  let w := s.takeWhile isPyWs
  if w = [] then none else some (w, s.dropWhile isPyWs)

/-- `re.match(r'^([A-Z][a-z]+\s+[A-Z][a-z]+(?:\s+[A-Z][a-z]+)?)\s*$', s)`,
returning group 1 (server.py line 473).  The character classes of adjacent
pieces are disjoint, so the greedy backtracking search reduces to this
deterministic parse; the optional third token alternative can only succeed
at end of string, disjointly from the two-token alternative. -/
def matchFullName (s : List Char) : Option (List Char) :=
  match pTok s with
  | none => none
  | some (t1, r1) =>
    match pWs1 r1 with
    | none => none
    | some (w1, r2) =>
      match pTok r2 with
      | none => none
      | some (t2, r3) =>
        match pWs1 r3 with
        | none => if r3 = [] then some (t1 ++ w1 ++ t2) else none
        | some (w2, r4) =>
          match pTok r4 with
          | none => if r4 = [] then some (t1 ++ w1 ++ t2) else none
          | some (t3, r5) =>
            if r5.dropWhile isPyWs = [] then some (t1 ++ w1 ++ t2 ++ w2 ++ t3)
            else none

/-- Attempt `(?:Name|NAME|name)[:\s]+([A-Z][a-z]+\s+[A-Z][a-z]+)` at the
head of `s`, returning group 1 (server.py line 482). -/
def tryNameLabeledAt (s : List Char) : Option (List Char) :=
  let hd : Option (List Char) :=
    if (['N','a','m','e'].isPrefixOf s || ['N','A','M','E'].isPrefixOf s
        || ['n','a','m','e'].isPrefixOf s)
    then some (s.drop 4) else none
  match hd with
  | none => none
  | some r =>
    let sepRun := r.takeWhile (fun c => c = ':' || isPyWs c)
    if sepRun = [] then none
    else
      let r2 := r.dropWhile (fun c => c = ':' || isPyWs c)
      match pTok r2 with
      | none => none
      | some (t1, r3) =>
        match pWs1 r3 with
        | none => none
        | some (wm, r4) =>
          match pTok r4 with
          | none => none
          | some (t2, _) => some (t1 ++ wm ++ t2)

/-- `re.search` for the `Name:`-labeled pattern: leftmost match wins. -/
def searchNameLabeled : List Char → Option (List Char)
  | [] => none
  | c :: t =>
    match tryNameLabeledAt (c :: t) with
    | some g => some g
    | none => searchNameLabeled t

/-- Attempt `\n([A-Z][a-z]+\s+[A-Z][a-z]+)\n` at the head of `s`,
returning group 1 (server.py line 483). -/
def tryTwoWordLineAt : List Char → Option (List Char)
  | '\n' :: r =>
    (match pTok r with
     | none => none
     | some (t1, r1) =>
       match pWs1 r1 with
       | none => none
       | some (w, r2) =>
         match pTok r2 with
         | none => none
         | some (t2, r3) =>
           match r3 with
           | '\n' :: _ => some (t1 ++ w ++ t2)
           | _ => none)
  | _ => none

/-- `re.search` for the own-line two-word pattern: leftmost match wins. -/
def searchTwoWordLine : List Char → Option (List Char)
  | [] => none
  | c :: t =>
    match tryTwoWordLineAt (c :: t) with
    | some g => some g
    | none => searchTwoWordLine t

/-- `\n` or `\r`, the class of `re.split(r'[\n\r]+', ...)`. -/
def isNlCr (c : Char) : Bool := c = '\n' || c = '\r'

/-- `re.split(r'[\n\r]+', s)`: pieces between maximal newline runs
(boundary pieces may be empty, exactly as in Python).  The Boolean flag
records whether the scan is inside a delimiter run whose piece was
already emitted, making the recursion structural. -/
def splitNLAux : List Char → List Char → Bool → List (List Char)
  | [], acc, _ => [acc.reverse]
  | c :: t, acc, inRun =>
    if isNlCr c then
      if inRun then splitNLAux t [] true
      else acc.reverse :: splitNLAux t [] true
    else splitNLAux t (c :: acc) false

/-- Entry point for `re.split(r'[\n\r]+', s)`. -/
def pySplitNewlines (s : List Char) : List (List Char) := splitNLAux s [] false

/-! ## Email / phone / URL regular expressions (server.py lines 497-548) -/

/-- `[a-zA-Z0-9._%+-]`, the local part class of the email pattern. -/
def isE1 (c : Char) : Bool :=
  isAlphaC c || isDigitC c || c = '.' || c = '_' || c = '%' || c = '+' || c = '-'

/-- `[a-zA-Z0-9.-]`, the domain class of the email pattern. -/
def isE2 (c : Char) : Bool := isAlphaC c || isDigitC c || c = '.' || c = '-'

/-- Backtracking step of `[a-zA-Z0-9.-]+\.[a-zA-Z]{2,}`: inside the
maximal domain-class run, pick the rightmost dot that is preceded by at
least one domain character and followed by at least two letters (greedy
`+` backtracks from the right).  Returns (prefix before the dot, letter
run after it, leftover of the run). -/
def emailDomSplitGo : List Char → List Char → Option (List Char × List Char × List Char) →
    Option (List Char × List Char × List Char)
  | _, [], best => best
  | pre, c :: rest, best =>
    if c = '.' then
      let alphas := rest.takeWhile isAlphaC
      let best' :=
        if 2 ≤ alphas.length ∧ pre ≠ [] then some (pre.reverse, alphas, rest.drop alphas.length)
        else best
      emailDomSplitGo (c :: pre) rest best'
    else emailDomSplitGo (c :: pre) rest best

/-- Attempt the email pattern `[a-zA-Z0-9._%+-]+@[a-zA-Z0-9.-]+\.[a-zA-Z]{2,}`
at the head of `s`; returns (match, remainder after the match). -/
def tryEmailAt (s : List Char) : Option (List Char × List Char) :=
  let lcl := s.takeWhile isE1
  if lcl = [] then none
  else
    match s.drop lcl.length with
    | '@' :: rem2 =>
      let dom := rem2.takeWhile isE2
      let after := rem2.drop dom.length
      (match emailDomSplitGo [] dom none with
       | some (pre, alphas, leftover) =>
         some (lcl ++ '@' :: (pre ++ '.' :: alphas), leftover ++ after)
       | none => none)
    | _ => none

/-- `re.findall` scan for the email pattern: leftmost, non-overlapping.
Every successful match consumes at least one character, so fuel
`s.length + 1` never runs out. -/
def emailFindAllGo : ℕ → List Char → List (List Char)
  | 0, _ => []
  | fuel + 1, s =>
    match tryEmailAt s with
    | some (m, rest) => m :: emailFindAllGo fuel rest
    | none =>
      match s with
      | [] => []
      | _ :: t => emailFindAllGo fuel t

/-- `re.findall(r'[a-zA-Z0-9._%+-]+@[a-zA-Z0-9.-]+\.[a-zA-Z]{2,}', s)`. -/
def emailFindAll (s : List Char) : List (List Char) := emailFindAllGo (s.length + 1) s

/-- `[\d\s()-]`, the tail class of the phone pattern. -/
def isP3 (c : Char) : Bool := isDigitC c || isPyWs c || c = '(' || c = ')' || c = '-'

/-- Attempt `[+]?\d[\d\s()-]{8,}` at the head of `s` (greedy; the pattern
ends after the repetition so the maximal run is taken). -/
def tryPhoneAt : List Char → Option (List Char)
  | '+' :: d :: r2 =>
    if isDigitC d then
      let run := r2.takeWhile isP3
      if 8 ≤ run.length then some ('+' :: d :: run) else none
    else none
  | d :: r2 =>
    if isDigitC d then
      let run := r2.takeWhile isP3
      if 8 ≤ run.length then some (d :: run) else none
    else none
  | [] => none

/-- `re.search(r'[+]?\d[\d\s()-]{8,}', s)`: leftmost match. -/
def phoneSearch : List Char → Option (List Char)
  | [] => none
  | c :: t =>
    match tryPhoneAt (c :: t) with
    | some m => some m
    | none => phoneSearch t

/-- `[^\s,)]`, the body class of the URL pattern. -/
def isUrlBody (c : Char) : Bool := !(isPyWs c || c = ',' || c = ')')

/-- Attempt `https?://[^\s,)]+` at the head of `s`. -/
def tryUrlAt (s : List Char) : Option (List Char × List Char) :=
  let httpsP : List Char := ['h','t','t','p','s',':','/','/']
  let httpP : List Char := ['h','t','t','p',':','/','/']
  if httpsP.isPrefixOf s then
    let r := s.drop 8
    let body := r.takeWhile isUrlBody
    if body = [] then none else some (httpsP ++ body, r.drop body.length)
  else if httpP.isPrefixOf s then
    let r := s.drop 7
    let body := r.takeWhile isUrlBody
    if body = [] then none else some (httpP ++ body, r.drop body.length)
  else none

/-- `re.findall` scan for the URL pattern (fuelled like `emailFindAllGo`). -/
def urlFindAllGo : ℕ → List Char → List (List Char)
  | 0, _ => []
  | fuel + 1, s =>
    match tryUrlAt s with
    | some (m, rest) => m :: urlFindAllGo fuel rest
    | none =>
      match s with
      | [] => []
      | _ :: t => urlFindAllGo fuel t

/-- `re.findall(r'https?://[^\s,)]+', s)`. -/
def urlFindAll (s : List Char) : List (List Char) := urlFindAllGo (s.length + 1) s

/-! ## Fallback extraction (generate_answer, server.py lines 461-557) -/

def nameKeywords : List String := ["name", "called", "who", "your name", "my name"]
def emailKeywords : List String := ["email", "mail"]
def phoneKeywords : List String := ["phone", "mobile", "contact", "number"]
def urlKeywords : List String := ["website", "link", "github", "linkedin", "portfolio", "url"]
def multiKeywords : List String := ["example", "examples", "links", "websites"]
def profileSites : List String :=
  ["github.com", "linkedin.com", "portfolio", "render.com", "vercel.app"]

/-- `any(word in s for word in kws)`. -/
def anyKeywordIn (kws : List String) (s : List Char) : Bool :=
  kws.any (fun k => hasSub k.data s)

/-- The name branch (lines 466-492): first-line header rule, then the two
fallback patterns over the first 300 characters; `none` means the branch
returned nothing and control falls through to the generic extraction. -/
def nameExtract (context : List Char) : Option String :=
  let lines := ((pySplitNewlines context).map pyStripL).filter (fun l => l ≠ [])
  let firstLine := lines.headD []
  match matchFullName firstLine with
  | some g => some (String.mk (pyStripL g))
  | none =>
    let firstPart := context.take 300
    match searchNameLabeled firstPart with
    | some g =>
      let nm := pyStripL g
      if 2 ≤ (pyWords nm).length then some (String.mk nm)
      else
        match searchTwoWordLine firstPart with
        | some g2 =>
          let nm2 := pyStripL g2
          if 2 ≤ (pyWords nm2).length then some (String.mk nm2) else none
        | none => none
    | none =>
      match searchTwoWordLine firstPart with
      | some g2 =>
        let nm2 := pyStripL g2
        if 2 ≤ (pyWords nm2).length then some (String.mk nm2) else none
      | none => none

/-- The email branch (lines 494-504). -/
def emailExtract (context : List Char) (partialInput : String) : Option String :=
  match emailFindAll context with
  | [] => none
  | m0 :: rest =>
    if partialInput ≠ "" then
      match (m0 :: rest).filter (fun e => hasSub (pyLowerL partialInput.data) (pyLowerL e)) with
      | mm :: _ => some (String.mk mm)
      | [] => some (String.mk m0)
    else some (String.mk m0)

/-- The phone branch (lines 506-510). -/
def phoneExtract (context : List Char) : Option String :=
  (phoneSearch context).map (fun m => String.mk (pyStripL m))

/-- The URL branch (lines 512-548): multiple-items filter, then the
specific-platform checks, then the first URL. -/
def urlExtract (queryLower fieldLower context : List Char) : Option String :=
  let urls := urlFindAll context
  let multi : Option String :=
    if anyKeywordIn multiKeywords fieldLower then
      let mainLinks := urls.filter (fun u => profileSites.any (fun s => hasSub s.data (pyLowerL u)))
      if mainLinks ≠ [] then some (joinSepStr ", " ((mainLinks.take 3).map String.mk))
      else none
    else none
  let gh : Option String :=
    if hasSub "github".data queryLower || hasSub "github".data fieldLower then
      match urls.filter (fun u => hasSub "github.com".data (pyLowerL u)) with
      | u :: _ => some (String.mk u)
      | [] => none
    else none
  let li : Option String :=
    if hasSub "linkedin".data queryLower || hasSub "linkedin".data fieldLower then
      match urls.filter (fun u => hasSub "linkedin.com".data (pyLowerL u)) with
      | u :: _ => some (String.mk u)
      | [] => none
    else none
  let pf : Option String :=
    if hasSub "portfolio".data queryLower || hasSub "portfolio".data fieldLower then
      match urls.filter
          (fun u => !hasSub "github.com".data (pyLowerL u) && !hasSub "linkedin.com".data (pyLowerL u)) with
      | u :: _ => some (String.mk u)
      | [] => none
    else none
  let dflt : Option String :=
    match urls with
    | u :: _ => some (String.mk u)
    | [] => none
  multi <|> gh <|> li <|> pf <|> dflt

/-- The final general extraction (lines 550-557): split the context into
sentences on dots, return the first (trimmed) sentence containing any
query word, truncated to 200 characters, else the sentinel. -/
def genericExtract (queryLower context : List Char) : String :=
  let sentences := splitDotL context
  let qws := pyWords queryLower
  let relevant := (sentences.filter (fun s => qws.any (fun w => hasSub w (pyLowerL s)))).map pyStripL
  match relevant with
  | r :: _ => String.mk (r.take 200)
  | [] => "Not in DB"

/-- The whole fallback extraction of `generate_answer` (lines 461-557),
translated branch by branch: `elif` chain on keyword tests, with a matched
branch that extracts nothing falling through to the generic extraction.
Note that the name/email/phone keyword tests read only the lower-cased
query, while the URL test reads the lower-cased query plus a space plus
the lower-cased field context, exactly as in the source. -/
def fallbackExtract (q context fieldContext partialInput : String) : String :=
  let ql := pyLowerL q.data
  let fl := pyLowerL fieldContext.data
  let ctx := context.data
  if anyKeywordIn nameKeywords ql then
    match nameExtract ctx with
    | some n => n
    | none => genericExtract ql ctx
  else if anyKeywordIn emailKeywords ql then
    match emailExtract ctx partialInput with
    | some e => e
    | none => genericExtract ql ctx
  else if anyKeywordIn phoneKeywords ql then
    match phoneExtract ctx with
    | some p => p
    | none => genericExtract ql ctx
  else if anyKeywordIn urlKeywords (ql ++ ' ' :: fl) then
    match urlExtract ql fl ctx with
    | some u => u
    | none => genericExtract ql ctx
  else genericExtract ql ctx

/-- The five field categories of the fallback extractor. -/
inductive FieldCat
  | name
  | email
  | phone
  | url
  | generic
deriving DecidableEq, Repr

/-- The classification actually performed by the `elif` chain of the code:
first matching category wins, in order name, email, phone, url, generic;
name/email/phone test the lower-cased query only, url tests the
lower-cased query plus space plus lower-cased field context. -/
def classifyQuery (q fieldContext : String) : FieldCat :=
  let ql := pyLowerL q.data
  let fl := pyLowerL fieldContext.data
  if anyKeywordIn nameKeywords ql then .name
  else if anyKeywordIn emailKeywords ql then .email
  else if anyKeywordIn phoneKeywords ql then .phone
  else if anyKeywordIn urlKeywords (ql ++ ' ' :: fl) then .url
  else .generic

/-- Modelled from the spec's words (claim C5): classification by testing
keywords against the lower-cased concatenation of query and field context
for EVERY category, same fixed order.  Kept separate from `classifyQuery`
(which is translated from the code) so the two can be compared. -/
def classifyQuerySpec (q fieldContext : String) : FieldCat :=
  let combined := pyLowerL q.data ++ ' ' :: pyLowerL fieldContext.data
  if anyKeywordIn nameKeywords combined then .name
  else if anyKeywordIn emailKeywords combined then .email
  else if anyKeywordIn phoneKeywords combined then .phone
  else if anyKeywordIn urlKeywords combined then .url
  else .generic

/-- Per-category extraction with explicit fall-through to the generic
extraction, used to state that `fallbackExtract` dispatches according to
`classifyQuery`. -/
def dispatchExtract (cat : FieldCat) (q context fieldContext partialInput : String) : String :=
  let ql := pyLowerL q.data
  let fl := pyLowerL fieldContext.data
  let ctx := context.data
  match cat with
  | .name =>
    match nameExtract ctx with
    | some n => n
    | none => genericExtract ql ctx
  | .email =>
    match emailExtract ctx partialInput with
    | some e => e
    | none => genericExtract ql ctx
  | .phone =>
    match phoneExtract ctx with
    | some p => p
    | none => genericExtract ql ctx
  | .url =>
    match urlExtract ql fl ctx with
    | some u => u
    | none => genericExtract ql ctx
  | .generic => genericExtract ql ctx

/-! ## LLM capability and generate_answer (server.py lines 408-459) -/

/-- The external capabilities of one query: the two separate
`check_llama_available()` calls (one inside `generate_answer`, one when the
route shapes the provenance field — the source re-checks, so the answers
may differ), the outcome of `ollama.generate` (`none` models a raised
exception), and the composite embedding oracle
`model.encode([q])[0] / np.linalg.norm(...)` returning the normalized
query vector. -/
structure LlmEnv (α : Type) where
  availAtGenerate : Bool
  generateResult : Option String
  availAtTag : Bool
  embedQuery : String → List α

/-- `generate_answer` plus a flag recording which branch actually produced
the text: `true` = the LLM's (stripped) output was returned, `false` = the
fallback extraction produced it (LLM unavailable or `ollama.generate`
raised). -/
def generateAnswerTagged (env : LlmEnv α) (q context fieldContext partialInput : String) :
    String × Bool :=
  if env.availAtGenerate then
    match env.generateResult with
    | some r => (pyStrip r, true)
    | none => (fallbackExtract q context fieldContext partialInput, false)
  else (fallbackExtract q context fieldContext partialInput, false)

/-- `generate_answer(query, context, field_context, partial_input)`. -/
def generate_answer (env : LlmEnv α) (q context fieldContext partialInput : String) : String :=
  (generateAnswerTagged env q context fieldContext partialInput).1

/-! ## Retrieval (server.py lines 354-370)

The numeric scores of the source are numpy floats; the model takes them in
an arbitrary linear ordered commutative ring `α` — the code only
multiplies, adds, compares and sorts them, and every operation and theorem
below is uniform in that structure.  `ℚ` is the intended dense model of
real-valued scores; concrete witnesses and counterexamples instantiate
`α := ℤ`, whose arithmetic the kernel can evaluate (the values involved,
such as a cosine similarity of exactly 1, are float-representable, so the
counterexamples mirror actual runs). -/

variable {α : Type} [LinearOrderedCommRing α]

/-- `np.dot` of two equal-length vectors. -/
def dotQ (a b : List α) : α := ((a.zip b).map (fun p => p.1 * p.2)).sum

/-- The sort key of the argsort model: ascending by score, ties ascending
by index (the stable model of `np.argsort`). -/
def argRel (s : List α) (i j : ℕ) : Prop :=
  s.getD i 0 < s.getD j 0 ∨ (s.getD i 0 = s.getD j 0 ∧ i ≤ j)

instance (s : List α) : DecidableRel (argRel s) := fun i j =>
  inferInstanceAs (Decidable (s.getD i 0 < s.getD j 0 ∨ (s.getD i 0 = s.getD j 0 ∧ i ≤ j)))

/-- `np.argsort(similarities)` modelled as a stable ascending sort of
`[0, ..., n-1]` by score. -/
def argsortAsc (s : List α) : List ℕ :=
  List.insertionSort (argRel s) (List.range s.length)

/-- `np.argsort(similarities)[::-1]`. -/
def argsortDesc (s : List α) : List ℕ := (argsortAsc s).reverse

/-- The retrieval step (spec section 4.4 `search`): similarity scores by
dot product against every embedding row, then the top `k` indices from the
reversed argsort, paired with their scores (server.py lines 355-359). -/
def search (rows : List (List α)) (qv : List α) (k : ℕ) : List (ℕ × α) :=
  let sims := rows.map (fun r => dotQ r qv)
  ((argsortDesc sims).take k).map (fun i => (i, sims.getD i 0))

/-! ## The query route and the rebuild (server.py lines 220-405) -/

/-- One indexed chunk, as stored in the `documents` global. -/
structure DocChunk where
  content : String
  source : String
  chunkIndex : ℕ
  totalChunks : ℕ
deriving DecidableEq, Repr

/-- The process-wide mutable state: the `documents` and `embeddings`
globals, the `vector_db_initialized` flag, and the pickled cache file
(`none` = absent). -/
structure SysState (α : Type) where
  documents : List DocChunk
  embeddings : Option (List (List α))
  vector_db_initialized : Bool
  cache : Option (List DocChunk × Option (List (List α)))
deriving DecidableEq

/-- A JSON response of the query route: HTTP status plus the optional
`answer` / `error` / `source` / `confidence` fields. -/
structure QueryResponse (α : Type) where
  status : ℕ
  answer : Option String
  error : Option String
  source : Option String
  confidence : Option α
deriving DecidableEq

def personalInfoKeywords : List String :=
  ["name", "email", "phone", "mobile", "contact", "address"]

/-- The `/api/query` route (server.py lines 307-405): empty-query check,
initialization check, personal-info shortcut, else embed-retrieve-answer. -/
def query_route (st : SysState α) (env : LlmEnv α) (queryText fieldContext partialInput : String) :
    QueryResponse α :=
  if queryText = "" then
    { status := 400, answer := none, error := some "Query is required",
      source := none, confidence := none }
  else if st.vector_db_initialized = false then
    { status := 200, answer := some "Not in DB",
      error := some "Vector database not initialized", source := none, confidence := none }
  else
    let queryLower := pyLowerL queryText.data
    let fieldLower := pyLowerL fieldContext.data
    let isPersonalInfo := anyKeywordIn personalInfoKeywords (queryLower ++ ' ' :: fieldLower)
    if isPersonalInfo = true ∧ 0 < st.documents.length then
      let context := joinSepStr "\n\n" ((st.documents.take 3).map (fun d => d.content))
      let answer := generate_answer env queryText context fieldContext partialInput
      { status := 200, answer := some answer, error := none,
        source := some "header-extraction", confidence := some 1 }
    else
      let enhancedQuery := if fieldContext ≠ "" then fieldContext ++ ": " ++ queryText else queryText
      let queryEmbedding := env.embedQuery enhancedQuery
      let rows := st.embeddings.getD []
      let similarities := rows.map (fun r => dotQ r queryEmbedding)
      let topIndices := (argsortDesc similarities).take TOP_K
      if topIndices.length = 0 then
        { status := 200, answer := some "Not in DB", error := none,
          source := none, confidence := none }
      else
        let relevantIndices := topIndices.take (min TOP_K topIndices.length)
        let contexts := relevantIndices.map (fun i => (st.documents.getD i ⟨"", "", 0, 0⟩).content)
        let context := joinSepStr "\n\n" contexts
        let answer := generate_answer env queryText context fieldContext partialInput
        let srcTag := if env.availAtTag then "llama-local" else "simple-extraction"
        let topScore := similarities.getD (topIndices.headD 0) 0
        { status := 200, answer := some answer, error := none,
          source := some srcTag, confidence := some topScore }

/-- The per-file chunk records built by the rebuild loop
(server.py lines 253-275); file extraction is modelled as already done,
each file being a (filename, extracted text) pair. -/
def buildDocs (files : List (String × String)) : List DocChunk :=
  files.flatMap (fun f =>
    let chunks := chunk_text f.2 CHUNK_SIZE CHUNK_OVERLAP
    chunks.enum.map (fun p => ⟨p.2, f.1, p.1, chunks.length⟩))

/-- The `/api/update-vectordb` route (server.py lines 220-304).
`modelLoadOk = false` models `load_embedding_model()` raising (embedding
capability missing): the globals are untouched because the assignment
`documents = []` comes after the load.  `encode` is the embedding oracle
(`model.encode` followed by row normalization); `none` models it raising,
which happens AFTER the `documents` global has been replaced.  The second
component of the result is the route's success flag. -/
def update_vector_db (st : SysState α) (files : List (String × String)) (modelLoadOk : Bool)
    (encode : List String → Option (List (List α))) : SysState α × Bool :=
  if files = [] then
    ({ documents := [], embeddings := none, vector_db_initialized := false,
       cache := some ([], none) }, true)
  else if modelLoadOk = false then (st, false)
  else
    let newDocs := buildDocs files
    let allTexts := newDocs.map (fun d => d.content)
    match encode allTexts with
    | none => ({ st with documents := newDocs }, false)
    | some m =>
      ({ documents := newDocs, embeddings := some m, vector_db_initialized := true,
         cache := some (newDocs, some m) }, true)

/-! ## The accepted-answer log (save_accepted_answer, server.py lines 624-669) -/

/-- The 60-character `'='*60` rule that delimits blocks. -/
def sepLine : String := String.mk (List.replicate 60 '=')

/-- The interior lines of one appended block. -/
def acceptedInner (fieldContext answer partialInput timestamp : String) : String :=
  "Field: " ++ fieldContext ++ "\n" ++
    (if partialInput ≠ "" then "User Typed (Hint): " ++ partialInput ++ "\n" else "") ++
    "Answer: " ++ answer ++ "\n" ++ "Date: " ++ timestamp ++ "\n"

/-- The full text appended per record (lines 651-658). -/
def acceptedBlock (fieldContext answer partialInput timestamp : String) : String :=
  "\n" ++ sepLine ++ "\n" ++ acceptedInner fieldContext answer partialInput timestamp
    ++ sepLine ++ "\n"

/-- Leftmost occurrence of `sep` in `s`: `some (before, after)` splits
around the first occurrence (Python `str.split` semantics). -/
def findSepOcc (sep : List Char) : List Char → Option (List Char × List Char)
  | [] => none
  | c :: t =>
    if sep.isPrefixOf (c :: t) then some ([], (c :: t).drop sep.length)
    else (findSepOcc sep t).map (fun p => (c :: p.1, p.2))

theorem findSepOcc_length_lt (sep : List Char) (hs : sep ≠ []) :
    ∀ (s p q : List Char), findSepOcc sep s = some (p, q) → q.length < s.length := by
  intro s
  induction s with
  | nil => intro p q h; simp [findSepOcc] at h
  | cons c t ih =>
    intro p q h
    have hlen : 0 < sep.length := List.length_pos.mpr hs
    rw [findSepOcc] at h
    split at h
    · injection h with h2
      rw [Prod.mk.injEq] at h2
      obtain ⟨-, hq⟩ := h2
      subst hq
      simp only [List.length_drop, List.length_cons]
      omega
    · rw [Option.map_eq_some'] at h
      obtain ⟨⟨p', q'⟩, hfind, he⟩ := h
      rw [Prod.mk.injEq] at he
      obtain ⟨-, hq⟩ := he
      subst hq
      have := ih p' q' hfind
      simp only [List.length_cons]
      omega

/-- Fuelled worker of `pySplitSep`; `findSepOcc_length_lt` shows that
for a nonempty separator the remainder shrinks at each step, so fuel
`s.length + 1` never runs out. -/
def pySplitSepGo (sep : List Char) : ℕ → List Char → List (List Char)
  | 0, s => [s]
  | fuel + 1, s =>
    match findSepOcc sep s with
    | none => [s]
    | some (p, q) => p :: pySplitSepGo sep fuel q

/-- Python `content.split(sep)` for a nonempty separator: leftmost,
non-overlapping occurrences. -/
def pySplitSep (sep : List Char) (s : List Char) : List (List Char) :=
  pySplitSepGo sep (s.length + 1) s

/-- `/api/save-accepted` (server.py lines 624-669) acting on the log file
content (`none` = file absent; append mode creates it).  Returns the new
file content; an empty `answer` is rejected with a 400 and the file is
untouched; a duplicate — some block of the `'='*60`-split already
containing both rendered lines as substrings — suppresses the append. -/
def save_accepted_answer (file : Option String)
    (fieldContext answer partialInput timestamp : String) : Option String :=
  if answer = "" then file
  else
    let block := acceptedBlock fieldContext answer partialInput timestamp
    match file with
    | none => some block
    | some content =>
      let entries := pySplitSep sepLine.data content.data
      if entries.any (fun e =>
          hasSub ("Field: " ++ fieldContext).data e && hasSub ("Answer: " ++ answer).data e)
      then some content
      else some (content ++ block)

/-! ## Properties of the argsort model -/

instance argRelTotal (s : List α) : IsTotal ℕ (argRel s) := by
  constructor
  intro i j
  rcases lt_trichotomy (s.getD i 0) (s.getD j 0) with h | h | h
  · exact Or.inl (Or.inl h)
  · rcases Nat.le_total i j with hij | hij
    · exact Or.inl (Or.inr ⟨h, hij⟩)
    · exact Or.inr (Or.inr ⟨h.symm, hij⟩)
  · exact Or.inr (Or.inl h)

instance argRelTrans (s : List α) : IsTrans ℕ (argRel s) := by
  constructor
  intro i j k h1 h2
  rcases h1 with h1 | ⟨e1, l1⟩ <;> rcases h2 with h2 | ⟨e2, l2⟩
  · exact Or.inl (h1.trans h2)
  · exact Or.inl (e2 ▸ h1)
  · exact Or.inl (e1 ▸ h2)
  · exact Or.inr ⟨e1.trans e2, l1.trans l2⟩

theorem argsortAsc_sorted (s : List α) : List.Sorted (argRel s) (argsortAsc s) :=
  List.sorted_insertionSort (argRel s) (List.range s.length)

theorem argsortAsc_perm (s : List α) : (argsortAsc s).Perm (List.range s.length) :=
  List.perm_insertionSort (argRel s) (List.range s.length)

theorem argsortDesc_perm (s : List α) : (argsortDesc s).Perm (List.range s.length) :=
  (List.reverse_perm (argsortAsc s)).trans (argsortAsc_perm s)

theorem argsortDesc_pairwise (s : List α) :
    (argsortDesc s).Pairwise (fun i j => argRel s j i) :=
  List.pairwise_reverse.mpr (argsortAsc_sorted s)

theorem argsortDesc_nodup (s : List α) : (argsortDesc s).Nodup :=
  (argsortDesc_perm s).nodup_iff.mpr (List.nodup_range _)

theorem argsortDesc_length (s : List α) : (argsortDesc s).length = s.length := by
  simpa using (argsortDesc_perm s).length_eq

theorem argsortDesc_pairwise_strict (s : List α) :
    (argsortDesc s).Pairwise (fun i j => argRel s j i ∧ i ≠ j) :=
  (argsortDesc_pairwise s).and (argsortDesc_nodup s)

theorem argsortDesc_mem (s : List α) (i : ℕ) (hi : i < s.length) : i ∈ argsortDesc s :=
  (argsortDesc_perm s).mem_iff.mpr (List.mem_range.mpr hi)

theorem argsortDesc_mem_lt (s : List α) (i : ℕ) (hi : i ∈ argsortDesc s) : i < s.length :=
  List.mem_range.mp ((argsortDesc_perm s).mem_iff.mp hi)

/-- The head of the reversed argsort is an index of maximal score. -/
theorem argsortDesc_head_max (s : List α) (hs : s ≠ []) :
    ∃ h t, argsortDesc s = h :: t ∧ h < s.length ∧
      ∀ i, i < s.length → s.getD i 0 ≤ s.getD h 0 := by
  have hlen : 0 < (argsortDesc s).length := by
    rw [argsortDesc_length]
    exact List.length_pos.mpr hs
  obtain ⟨h, t, hd⟩ := List.exists_cons_of_ne_nil (List.length_pos.mp hlen)
  refine ⟨h, t, hd, argsortDesc_mem_lt s h (hd ▸ List.mem_cons_self h t), ?_⟩
  intro i hi
  have hmem : i ∈ argsortDesc s := argsortDesc_mem s i hi
  rw [hd] at hmem
  rcases List.mem_cons.mp hmem with rfl | hmem
  · exact le_refl _
  · have hpw := argsortDesc_pairwise s
    rw [hd, List.pairwise_cons] at hpw
    rcases hpw.1 i hmem with hlt | ⟨heq, -⟩
    · exact hlt.le
    · exact heq.le

/-! ## Claim C1: retrieval ordering -/

/-- C1, counterexample: on the embedding matrix with two identical rows
`[1]` and query vector `[1]` both chunks score `1`, and `search` returns
the pair with the HIGHER chunk index first — `np.argsort` ascending
followed by `[::-1]` reverses tied indices — refuting the claim that ties
are ordered by ascending chunk index. -/
theorem C1_counterexample :
    search [[(1 : ℤ)], [1]] [1] 2 = [(1, 1), (0, 1)]
    ∧ ¬ (search [[(1 : ℤ)], [1]] [1] 2).Pairwise (fun a b => a.2 = b.2 → a.1 < b.1) := by
  constructor
  · decide
  · decide

/-- C1 (amended): for every embedding matrix and query vector, `search`
returns `min k N` (chunkIndex, score) pairs in non-increasing score order,
but ties are ordered by DESCENDING chunk index (the ascending argsort is
reversed); every chunk not returned scores no higher than every returned
pair. -/
theorem C1_search_ordering (rows : List (List α)) (qv : List α) (k : ℕ) :
    (search rows qv k).length = min k rows.length
    ∧ (search rows qv k).Pairwise
        (fun a b => b.2 < a.2 ∨ (a.2 = b.2 ∧ b.1 < a.1))
    ∧ ∀ j ∈ (argsortDesc (rows.map (fun r => dotQ r qv))).drop k,
        ∀ p ∈ search rows qv k, (rows.map (fun r => dotQ r qv)).getD j 0 ≤ p.2 := by
  refine ⟨?_, ?_, ?_⟩
  · simp [search, argsortDesc_length]
  · have hpw := argsortDesc_pairwise_strict (rows.map (fun r => dotQ r qv))
    have htake := hpw.sublist (List.take_sublist k _)
    rw [search]
    refine List.pairwise_map.mpr (htake.imp ?_)
    rintro i j ⟨hrel, hne⟩
    rcases hrel with hlt | ⟨heq, hle⟩
    · exact Or.inl hlt
    · exact Or.inr ⟨heq.symm, lt_of_le_of_ne hle (fun hji => hne hji.symm)⟩
  · intro j hj p hp
    rw [search] at hp
    simp only [List.mem_map] at hp
    obtain ⟨i, hi, rfl⟩ := hp
    have hpw := argsortDesc_pairwise (rows.map (fun r => dotQ r qv))
    rw [← List.take_append_drop k (argsortDesc (rows.map (fun r => dotQ r qv))),
      List.pairwise_append] at hpw
    rcases hpw.2.2 i hi j hj with hlt | ⟨heq, -⟩
    · exact hlt.le
    · exact heq.le

/-! ## Claim C2: rebuild atomicity -/

/-- C2: the rebuild is NOT atomic when the embedding step raises.  First
conjunct: if the embedding model fails to LOAD, the state is untouched
(this half of the claim holds, because `documents = []` comes after the
load).  Second conjunct, the failing input: from a live state holding the
old chunk `"old"`, a rebuild over one file `("f.txt", "hello")` whose
`model.encode` raises leaves `documents` already replaced by the new
chunks while `embeddings` still holds the old matrix — a mixed live
snapshot visible to queries — though nothing is persisted and the route
reports failure. -/
theorem C2_rebuild_not_atomic :
    update_vector_db (⟨[⟨"old", "o.txt", 0, 1⟩], some [[1]], true,
          some ([⟨"old", "o.txt", 0, 1⟩], some [[1]])⟩ : SysState ℤ)
        [("f.txt", "hello")] false (fun _ => none)
      = (⟨[⟨"old", "o.txt", 0, 1⟩], some [[1]], true,
          some ([⟨"old", "o.txt", 0, 1⟩], some [[1]])⟩, false)
    ∧ (update_vector_db (⟨[⟨"old", "o.txt", 0, 1⟩], some [[1]], true,
          some ([⟨"old", "o.txt", 0, 1⟩], some [[1]])⟩ : SysState ℤ)
        [("f.txt", "hello")] true (fun _ => none)).2 = false
    ∧ (update_vector_db (⟨[⟨"old", "o.txt", 0, 1⟩], some [[1]], true,
          some ([⟨"old", "o.txt", 0, 1⟩], some [[1]])⟩ : SysState ℤ)
        [("f.txt", "hello")] true (fun _ => none)).1.documents = [⟨"hello", "f.txt", 0, 1⟩]
    ∧ (update_vector_db (⟨[⟨"old", "o.txt", 0, 1⟩], some [[1]], true,
          some ([⟨"old", "o.txt", 0, 1⟩], some [[1]])⟩ : SysState ℤ)
        [("f.txt", "hello")] true (fun _ => none)).1.documents ≠ [⟨"old", "o.txt", 0, 1⟩]
    ∧ (update_vector_db (⟨[⟨"old", "o.txt", 0, 1⟩], some [[1]], true,
          some ([⟨"old", "o.txt", 0, 1⟩], some [[1]])⟩ : SysState ℤ)
        [("f.txt", "hello")] true (fun _ => none)).1.embeddings = some [[1]]
    ∧ (update_vector_db (⟨[⟨"old", "o.txt", 0, 1⟩], some [[1]], true,
          some ([⟨"old", "o.txt", 0, 1⟩], some [[1]])⟩ : SysState ℤ)
        [("f.txt", "hello")] true (fun _ => none)).1.cache
        = some ([⟨"old", "o.txt", 0, 1⟩], some [[1]]) := by
  refine ⟨by decide, by decide, by decide, by decide, by decide, by decide⟩

/-! ## Claim C4: empty-corpus response -/

/-- C4, counterexample: with the vector DB uninitialized, the query
response DOES carry an `error` field (`"Vector database not initialized"`),
refuting "with no error field". -/
theorem C4_counterexample :
    (query_route (⟨[], none, false, none⟩ : SysState ℤ)
        ⟨false, none, false, fun _ => []⟩ "hi" "" "").answer = some "Not in DB"
    ∧ (query_route (⟨[], none, false, none⟩ : SysState ℤ)
        ⟨false, none, false, fun _ => []⟩ "hi" "" "").status = 200
    ∧ ¬ (query_route (⟨[], none, false, none⟩ : SysState ℤ)
        ⟨false, none, false, fun _ => []⟩ "hi" "" "").error = none := by
  refine ⟨by decide, by decide, by decide⟩

/-- C4 (amended): for every non-empty query arriving while the vector DB
is uninitialized, the response is HTTP 200 with `answer = "Not in DB"`
AND an `error` field `"Vector database not initialized"` (the claim's
"no error field" is false; the non-error status and the answer value are
as claimed). -/
theorem C4_uninitialized (st : SysState α) (env : LlmEnv α) (q fc pi : String)
    (hq : q ≠ "") (hinit : st.vector_db_initialized = false) :
    query_route st env q fc pi =
      { status := 200, answer := some "Not in DB",
        error := some "Vector database not initialized",
        source := none, confidence := none } := by
  simp [query_route, hq, hinit]

/-- Witness for `C4_uninitialized` at a concrete state and query. -/
theorem C4_uninitialized_witness :
    query_route (⟨[], none, false, none⟩ : SysState ℤ)
        ⟨false, none, false, fun _ => []⟩ "hi" "" "" =
      { status := 200, answer := some "Not in DB",
        error := some "Vector database not initialized",
        source := none, confidence := none } :=
  C4_uninitialized _ _ _ _ _ (by decide) rfl

/-! ## Claim C8: personal-info shortcut -/

/-- C8: any non-empty query whose lower-cased query-plus-space-plus-field
context contains one of {name, email, phone, mobile, contact, address},
arriving on an initialized non-empty corpus, is answered from the first 3
chunks joined by blank lines, with provenance `header-extraction` and
confidence exactly 1; and retrieval is skipped — the response does not
depend on the embedding matrix or on the query-embedding oracle. -/
theorem C8_personal_shortcut (st : SysState α) (env : LlmEnv α) (q fc pi : String)
    (hq : q ≠ "") (hinit : st.vector_db_initialized = true)
    (hpers : anyKeywordIn personalInfoKeywords
      (pyLowerL q.data ++ ' ' :: pyLowerL fc.data) = true)
    (hdocs : 0 < st.documents.length) :
    query_route st env q fc pi =
      { status := 200,
        answer := some (generate_answer env q
          (joinSepStr "\n\n" ((st.documents.take 3).map (fun d => d.content))) fc pi),
        error := none, source := some "header-extraction", confidence := some 1 }
    ∧ ∀ (emb' : Option (List (List α))) (f' : String → List α),
        query_route { st with embeddings := emb' } { env with embedQuery := f' } q fc pi
          = query_route st env q fc pi := by
  constructor
  · simp [query_route, hq, hinit, hpers, hdocs]
  · intro emb' f'
    simp [query_route, hq, hinit, hpers, hdocs, generate_answer, generateAnswerTagged]

/-- Witness for `C8_personal_shortcut`: a concrete one-chunk corpus and
the query `"email"`. -/
theorem C8_personal_shortcut_witness :
    query_route (⟨[⟨"hello", "f.txt", 0, 1⟩], some [[1]], true, none⟩ : SysState ℤ)
        ⟨false, none, false, fun _ => [1]⟩ "email" "" "" =
      { status := 200,
        answer := some (generate_answer (⟨false, none, false, fun _ => [1]⟩ : LlmEnv ℤ) "email"
          (joinSepStr "\n\n"
            (((⟨[⟨"hello", "f.txt", 0, 1⟩], some [[1]], true, none⟩ :
                SysState ℤ).documents.take 3).map (fun d => d.content))) "" ""),
        error := none, source := some "header-extraction", confidence := some 1 } :=
  (C8_personal_shortcut _ _ _ _ _ (by decide) rfl (by decide) (by decide)).1

/-! ## Claim C3: provenance tag and confidence of the retrieval path -/

/-- C3, counterexample: with Ollama reported available both times but
`ollama.generate` raising, the answer text is produced by the fallback
extraction (the tagged flag is `false` and the response answer equals the
fallback extraction), yet the response's provenance field says
`llama-local` (the LLM tag) because it is computed from a fresh
availability check, not from the branch that produced the text. -/
theorem C3_counterexample :
    (query_route (⟨[⟨"hello world", "f.txt", 0, 1⟩], some [[1]], true, none⟩ : SysState ℤ)
        ⟨true, none, true, fun _ => [1]⟩ "what is foo" "" "").source = some "llama-local"
    ∧ (generateAnswerTagged (⟨true, none, true, fun _ => [1]⟩ : LlmEnv ℤ)
        "what is foo" "hello world" "" "").2 = false
    ∧ (query_route (⟨[⟨"hello world", "f.txt", 0, 1⟩], some [[1]], true, none⟩ : SysState ℤ)
        ⟨true, none, true, fun _ => [1]⟩ "what is foo" "" "").answer
      = some (fallbackExtract "what is foo" "hello world" "" "") := by
  refine ⟨by decide, by decide, by decide⟩

/-- C3 (amended): on the non-shortcut retrieval path the provenance tag is
`llama-local` or `simple-extraction` according to a FRESH availability
check performed when the response is shaped (`env.availAtTag`) — which can
disagree with the branch that actually produced the text — and the
confidence is the top retrieval score: a similarity value attained by some
row and at least every row's similarity. -/
theorem C3_tag_and_confidence (st : SysState α) (env : LlmEnv α) (q fc pi : String)
    (hq : q ≠ "") (hinit : st.vector_db_initialized = true)
    (hshort : ¬ (anyKeywordIn personalInfoKeywords
        (pyLowerL q.data ++ ' ' :: pyLowerL fc.data) = true ∧ 0 < st.documents.length))
    (hrows : st.embeddings.getD [] ≠ []) :
    (query_route st env q fc pi).source
      = some (if env.availAtTag then "llama-local" else "simple-extraction")
    ∧ ∃ c, (query_route st env q fc pi).confidence = some c
        ∧ c ∈ (st.embeddings.getD []).map (fun r =>
            dotQ r (env.embedQuery (if fc ≠ "" then fc ++ ": " ++ q else q)))
        ∧ ∀ s ∈ (st.embeddings.getD []).map (fun r =>
            dotQ r (env.embedQuery (if fc ≠ "" then fc ++ ": " ++ q else q))), s ≤ c := by
  have hsimsne : (st.embeddings.getD []).map (fun r =>
      dotQ r (env.embedQuery (if fc ≠ "" then fc ++ ": " ++ q else q))) ≠ [] := by
    simpa using hrows
  obtain ⟨hidx, t, hd, hlt, hmax⟩ := argsortDesc_head_max _ hsimsne
  have htake : ((argsortDesc ((st.embeddings.getD []).map (fun r =>
      dotQ r (env.embedQuery (if fc ≠ "" then fc ++ ": " ++ q else q))))).take TOP_K)
      = hidx :: t.take 2 := by
    rw [hd]
    rfl
  simp only [query_route, if_neg hq, hinit]
  rw [if_neg (by simp), if_neg hshort]
  simp only [htake]
  rw [if_neg (by simp)]
  refine ⟨rfl, ?_⟩
  refine ⟨((st.embeddings.getD []).map (fun r =>
      dotQ r (env.embedQuery (if fc ≠ "" then fc ++ ": " ++ q else q)))).getD hidx 0, rfl, ?_, ?_⟩
  · rw [List.getD_eq_getElem _ _ (by simpa using hlt)]
    exact List.getElem_mem _
  · intro s hs
    obtain ⟨i, hi, rfl⟩ := List.mem_iff_getElem.mp hs
    rw [← List.getD_eq_getElem _ 0 hi]
    exact hmax i (by simpa using hi)

/-- Witness for `C3_tag_and_confidence` at a concrete state, environment
and query. -/
theorem C3_tag_and_confidence_witness :
    (query_route (⟨[⟨"hello world", "f.txt", 0, 1⟩], some [[1]], true, none⟩ : SysState ℤ)
        ⟨true, none, true, fun _ => [1]⟩ "what is foo" "" "").source
      = some (if (⟨true, none, true, fun _ => [1]⟩ : LlmEnv ℤ).availAtTag
          then "llama-local" else "simple-extraction")
    ∧ ∃ c, (query_route (⟨[⟨"hello world", "f.txt", 0, 1⟩], some [[1]], true, none⟩ : SysState ℤ)
          ⟨true, none, true, fun _ => [1]⟩ "what is foo" "" "").confidence = some c
        ∧ c ∈ (((⟨[⟨"hello world", "f.txt", 0, 1⟩], some [[1]], true, none⟩ :
            SysState ℤ).embeddings.getD []).map (fun r =>
            dotQ r ((⟨true, none, true, fun _ => [1]⟩ : LlmEnv ℤ).embedQuery
              (if ("" : String) ≠ "" then "" ++ ": " ++ "what is foo" else "what is foo"))))
        ∧ ∀ s ∈ (((⟨[⟨"hello world", "f.txt", 0, 1⟩], some [[1]], true, none⟩ :
            SysState ℤ).embeddings.getD []).map (fun r =>
            dotQ r ((⟨true, none, true, fun _ => [1]⟩ : LlmEnv ℤ).embedQuery
              (if ("" : String) ≠ "" then "" ++ ": " ++ "what is foo" else "what is foo")))),
            s ≤ c :=
  C3_tag_and_confidence _ _ _ _ _ (by decide) rfl (by decide) (by decide)

/-! ## Claim C5: fallback classification -/

/-- C5, counterexample: for query `"abc"` with field context `"name"`, the
spec-described classification (keywords against the lower-cased
concatenation of query and field context) picks the name category — whose
extractor would return `"John Smith"` from the context — but the code
tests name/email/phone keywords against the query alone, classifies the
input as generic, and returns `"Not in DB"`. -/
theorem C5_counterexample :
    classifyQuerySpec "abc" "name" = FieldCat.name
    ∧ classifyQuery "abc" "name" = FieldCat.generic
    ∧ fallbackExtract "abc" "John Smith\nmore text" "name" "" = "Not in DB"
    ∧ dispatchExtract FieldCat.name "abc" "John Smith\nmore text" "name" "" = "John Smith" := by
  refine ⟨by decide, by decide, by decide, by decide⟩

/-- C5 (amended): the fallback extraction dispatches on exactly one
category per `classifyQuery` — evaluated in the fixed order name → email →
phone → url → generic with the first match winning — where the
name/email/phone keyword tests read the lower-cased QUERY ONLY and only the
url test reads the lower-cased query plus space plus field context; hence
replacing the field context can change the chosen category only between
url and generic. -/
theorem C5_dispatch (q context fieldContext partialInput : String) :
    fallbackExtract q context fieldContext partialInput
      = dispatchExtract (classifyQuery q fieldContext) q context fieldContext partialInput
    ∧ ∀ fc' : String,
        classifyQuery q fc' = classifyQuery q fieldContext
        ∨ ((classifyQuery q fc' = FieldCat.url ∨ classifyQuery q fc' = FieldCat.generic)
           ∧ (classifyQuery q fieldContext = FieldCat.url
              ∨ classifyQuery q fieldContext = FieldCat.generic)) := by
  constructor
  · by_cases h1 : anyKeywordIn nameKeywords (pyLowerL q.data) = true <;>
      by_cases h2 : anyKeywordIn emailKeywords (pyLowerL q.data) = true <;>
      by_cases h3 : anyKeywordIn phoneKeywords (pyLowerL q.data) = true <;>
      by_cases h4 : anyKeywordIn urlKeywords
        (pyLowerL q.data ++ ' ' :: pyLowerL fieldContext.data) = true <;>
      simp [fallbackExtract, dispatchExtract, classifyQuery, h1, h2, h3, h4]
  · intro fc'
    by_cases h1 : anyKeywordIn nameKeywords (pyLowerL q.data) = true <;>
      by_cases h2 : anyKeywordIn emailKeywords (pyLowerL q.data) = true <;>
      by_cases h3 : anyKeywordIn phoneKeywords (pyLowerL q.data) = true <;>
      simp [classifyQuery, h1, h2, h3]

/-! ## Claim C6: the "John A. Smith" scenario -/

/-- C6, counterexample: with the query classified as name and the context
whose first non-empty line is `"John A. Smith"`, the extraction does NOT
return `"John A. Smith"` — the header rule's token shape `[A-Z][a-z]+`
rejects the middle initial `"A."`. -/
theorem C6_counterexample :
    ¬ fallbackExtract "name" "John A. Smith" "" "" = "John A. Smith" := by decide

/-- C6 (amended): the first-line header rule accepts only two or three
space-separated tokens each consisting of a capital letter followed by at
least one lowercase letter; `"John A. Smith"` fails it (and every other
name rule), so the extraction yields the sentinel `"Not in DB"`, while a
first line `"John Adam Smith"` is returned exactly. -/
theorem C6_first_line_name :
    matchFullName "John A. Smith".data = none
    ∧ fallbackExtract "name" "John A. Smith" "" "" = "Not in DB"
    ∧ matchFullName "John Adam Smith".data = some "John Adam Smith".data
    ∧ fallbackExtract "name" "John Adam Smith" "" "" = "John Adam Smith" := by
  refine ⟨by decide, by decide, by decide, by decide⟩

/-! ## Claim C10: termination of chunk_text -/

/-- With `overlap < size` the loop finishes once the fuel covers the
remaining distance: the start strictly advances by `size - overlap ≥ 1`
per iteration. -/
theorem chunkLoop_some (text : List Char) (size overlap : ℕ) :
    ∀ (fuel : ℕ) (start : ℤ) (acc : List (List Char)),
      (text.length : ℤ) ≤ start + fuel * ((size : ℤ) - overlap) →
      ∃ r, chunkLoop text size overlap fuel start acc = some r := by
  intro fuel
  induction fuel with
  | zero =>
    intro start acc hb
    simp only [Nat.cast_zero, zero_mul, add_zero] at hb
    refine ⟨acc.reverse, ?_⟩
    simp only [chunkLoop]
    rw [if_neg (by omega)]
  | succ fuel ih =>
    intro start acc hb
    by_cases hg : start < (text.length : ℤ)
    · simp only [chunkLoop]
      rw [if_pos hg]
      apply ih
      push_cast at hb ⊢
      linarith
    · refine ⟨acc.reverse, ?_⟩
      simp only [chunkLoop]
      rw [if_neg hg]

/-- With `overlap >= size` and a non-empty text the loop guard
`start < len(text)` holds forever: the start never increases past 0. -/
theorem chunkLoop_none (text : List Char) (size overlap : ℕ) (hge : size ≤ overlap)
    (hne : text ≠ []) :
    ∀ (fuel : ℕ) (start : ℤ) (acc : List (List Char)), start ≤ 0 →
      chunkLoop text size overlap fuel start acc = none := by
  have hlen : (0 : ℤ) < text.length := by
    exact_mod_cast List.length_pos.mpr hne
  intro fuel
  induction fuel with
  | zero =>
    intro start acc hs
    simp only [chunkLoop]
    rw [if_pos (by omega)]
  | succ fuel ih =>
    intro start acc hs
    simp only [chunkLoop]
    rw [if_pos (by omega)]
    apply ih
    have hstep : (size : ℤ) - overlap ≤ 0 := by
      have : (size : ℤ) ≤ overlap := by exact_mod_cast hge
      linarith
    linarith

/-- C10: `chunk_text` terminates for every text when `0 < overlap < size`
(fuel `text.length + 1` suffices and returns the result), but for every
non-empty text a call with `overlap >= size` never terminates — the loop
guard holds after every number of iterations, so no amount of fuel
produces a result; the code never rejects that parameter combination. -/
theorem C10_termination :
    (∀ (text : String) (size overlap : ℕ), 0 < overlap → overlap < size →
        chunkTextFuel text size overlap (text.length + 1)
          = some (chunk_text text size overlap))
    ∧ (∀ (text : String) (size overlap : ℕ), text ≠ "" → size ≤ overlap →
        ∀ fuel : ℕ, chunkTextFuel text size overlap fuel = none) := by
  constructor
  · intro text size overlap h1 h2
    have hstep : (1 : ℤ) ≤ (size : ℤ) - overlap := by
      have : (overlap : ℤ) < size := by exact_mod_cast h2
      linarith
    have hbound : (text.data.length : ℤ)
        ≤ 0 + ((text.length + 1 : ℕ) : ℤ) * ((size : ℤ) - overlap) := by
      push_cast
      have hlen : (text.data.length : ℤ) = (text.length : ℤ) := by
        rfl
      nlinarith [Int.ofNat_nonneg text.length]
    obtain ⟨r, hr⟩ := chunkLoop_some text.data size overlap (text.length + 1) 0 [] hbound
    rw [chunkTextFuel, hr, chunk_text, chunkTextFuel, hr]
    rfl
  · intro text size overlap hne hge fuel
    have hdata : text.data ≠ [] := by
      intro hd
      apply hne
      cases text with
      | mk d =>
        cases hd
        rfl
    rw [chunkTextFuel, chunkLoop_none text.data size overlap hge hdata fuel 0 [] le_rfl]
    rfl

/-- Witness for `C10_termination`: termination at `("ab", 3, 2)` and
divergence at `("ab", 3, 5)` with fuel 7. -/
theorem C10_termination_witness :
    chunkTextFuel "ab" 3 2 ("ab".length + 1) = some (chunk_text "ab" 3 2)
    ∧ chunkTextFuel "ab" 3 5 7 = none :=
  ⟨C10_termination.1 "ab" 3 2 (by decide) (by decide),
   C10_termination.2 "ab" 3 5 (by decide) (by decide) 7⟩

/-! ## Claim C7: chunk_text against the spec's sliding-window description -/

/-- The window of `chunkWindowsSpecL` at start index `j`, named for proofs. -/
def windowAt (text : List Char) (size overlap : ℕ) (j : ℕ) : Option (List Char) :=
  if j * (size - overlap) < text.length then
    (if pyStripL ((text.drop (j * (size - overlap))).take size) = [] then none
     else some (pyStripL ((text.drop (j * (size - overlap))).take size)))
  else none

theorem chunkWindowsSpecL_eq (text : List Char) (size overlap : ℕ) :
    chunkWindowsSpecL text size overlap
      = (List.range text.length).filterMap (windowAt text size overlap) := by
  rw [chunkWindowsSpecL]
  apply List.filterMap_congr
  intro j _
  rw [windowAt]

/-- Python slicing at a nonnegative in-range start with the clamped end
used by `chunk_text` agrees with drop-then-take. -/
theorem pySliceZ_nat (s : List Char) (a sz : ℕ) (h : a ≤ s.length) :
    pySliceZ s (a : ℤ) (min ((a : ℤ) + sz) (s.length : ℤ)) = (s.drop a).take sz := by
  simp only [pySliceZ]
  rw [if_neg (by omega), if_neg (by omega)]
  have h1 : (min (a : ℤ) (s.length : ℤ)).toNat = a := by omega
  have h2 : (min (min ((a : ℤ) + sz) (s.length : ℤ)) (s.length : ℤ)).toNat
      = min (a + sz) s.length := by omega
  rw [h1, h2]
  rw [List.take_eq_take]
  simp only [List.length_drop]
  omega

/-- Past the text length every window is empty and dropped. -/
theorem windowAt_tail_nil (text : List Char) (size overlap : ℕ) (i : ℕ)
    (h : ¬ i * (size - overlap) < text.length) :
    (List.range' i (text.length - i)).filterMap (windowAt text size overlap) = [] := by
  apply List.filterMap_eq_nil_iff.mpr
  intro j hj
  have hij : i ≤ j := (List.mem_range'_1.mp hj).1
  rw [windowAt, if_neg]
  have hmul : i * (size - overlap) ≤ j * (size - overlap) :=
    Nat.mul_le_mul_right _ hij
  omega

/-- The loop of `chunk_text`, started at the `i`-th window boundary with
enough fuel, produces exactly the accumulated chunks followed by the
trimmed non-empty windows from `i` on. -/
theorem chunkLoop_eq_windows (text : List Char) (size overlap : ℕ) (h2 : overlap < size) :
    ∀ (fuel i : ℕ) (acc : List (List Char)),
      text.length ≤ i * (size - overlap) + fuel * (size - overlap) →
      chunkLoop text size overlap fuel ((i * (size - overlap) : ℕ) : ℤ) acc
        = some (acc.reverse
            ++ (List.range' i (text.length - i)).filterMap (windowAt text size overlap)) := by
  intro fuel
  induction fuel with
  | zero =>
    intro i acc hb
    have hg : ¬ i * (size - overlap) < text.length := by omega
    simp only [chunkLoop]
    rw [if_neg (by exact_mod_cast hg), windowAt_tail_nil text size overlap i hg,
      List.append_nil]
  | succ fuel ih =>
    intro i acc hb
    by_cases hg : i * (size - overlap) < text.length
    · have hstep1 : 1 ≤ size - overlap := by omega
      simp only [chunkLoop]
      rw [if_pos (by exact_mod_cast hg)]
      have hslice := pySliceZ_nat text (i * (size - overlap)) size (le_of_lt hg)
      rw [hslice]
      have hnext : ((i * (size - overlap) : ℕ) : ℤ) + ((size : ℤ) - (overlap : ℤ))
          = (((i + 1) * (size - overlap) : ℕ) : ℤ) := by
        push_cast [Nat.cast_sub (le_of_lt h2)]
        ring
      rw [hnext]
      have hb' : text.length ≤ (i + 1) * (size - overlap) + fuel * (size - overlap) := by
        have harith : (i + 1) * (size - overlap) + fuel * (size - overlap)
            = i * (size - overlap) + (fuel + 1) * (size - overlap) := by ring
        omega
      refine (ih (i + 1) _ hb').trans ?_
      congr 1
      have hi : i < text.length :=
        lt_of_le_of_lt (Nat.le_mul_of_pos_right i (by omega)) hg
      have hrange : List.range' i (text.length - i)
          = i :: List.range' (i + 1) (text.length - (i + 1)) := by
        rw [show text.length - i = (text.length - (i + 1)) + 1 by omega]
        exact List.range'_succ i _ 1
      rw [hrange, List.filterMap_cons]
      rw [windowAt, if_pos hg]
      by_cases hc : pyStripL ((text.drop (i * (size - overlap))).take size) = []
      · simp [hc]
      · simp [hc]
    · have hg' : ¬ (((i * (size - overlap) : ℕ) : ℤ) < (text.length : ℤ)) := by
        exact_mod_cast hg
      simp only [chunkLoop]
      rw [if_neg hg', windowAt_tail_nil text size overlap i hg, List.append_nil]
/-- C7, counterexample: with `size = 3`, `overlap = 2` (so `0 < overlap <
size`) the non-empty text `"ab"` is SHORTER than `size` yet produces TWO
chunks `["ab", "b"]`, because the start keeps advancing by `size - overlap
= 1 < length`; this refutes "a non-empty text shorter than size yields
exactly one chunk". -/
theorem C7_counterexample :
    0 < 2 ∧ 2 < 3 ∧ ("ab" : String) ≠ "" ∧ ("ab" : String).length < 3
    ∧ chunk_text "ab" 3 2 = ["ab", "b"]
    ∧ (chunk_text "ab" 3 2).length = 2 := by
  refine ⟨by decide, by decide, by decide, by decide, by decide, by decide⟩

/-- C7 (amended): for `0 < overlap < size`, chunking equals the spec's
sliding windows — `text[start : start+size]` for every start `i * (size -
overlap)` below the text length, each trimmed, empty windows dropped (in
particular the empty text yields zero chunks) — and a non-empty text of
length at most `size - overlap` (not: at most `size`) yields exactly one
chunk, namely the trimmed text, or zero chunks if whitespace-only. -/
theorem C7_chunking (size overlap : ℕ) (h1 : 0 < overlap) (h2 : overlap < size) :
    (∀ text : String, chunk_text text size overlap = chunkWindowsSpec text size overlap)
    ∧ ∀ text : String, text.length ≤ size - overlap →
        chunk_text text size overlap = if pyStrip text = "" then [] else [pyStrip text] := by
  have hstep1 : 1 ≤ size - overlap := by omega
  constructor
  · intro text
    have hbound : text.data.length
        ≤ 0 * (size - overlap) + (text.length + 1) * (size - overlap) := by
      have := Nat.le_mul_of_pos_right (text.length + 1) (show 0 < size - overlap by omega)
      have hlen : text.data.length = text.length := rfl
      omega
    have hmain := chunkLoop_eq_windows text.data size overlap h2 (text.length + 1) 0 [] hbound
    simp only [Nat.zero_mul, Nat.cast_zero, List.reverse_nil, List.nil_append,
      Nat.sub_zero] at hmain
    rw [chunk_text, chunkTextFuel, hmain]
    rw [chunkWindowsSpec, chunkWindowsSpecL_eq, List.range_eq_range']
    rfl
  · intro text hlen
    have hdlen : text.data.length = text.length := rfl
    rcases Nat.eq_zero_or_pos text.length with h0 | h0
    · have hdata : text.data = [] := List.length_eq_zero.mp (by omega)
      have htext : text = "" := by
        cases text with
        | mk d => cases hdata; rfl
      subst htext
      rfl
    · have hfuel : text.length + 1 = (text.length - 1) + 1 + 1 := by omega
      rw [chunk_text, chunkTextFuel, hfuel]
      simp only [chunkLoop]
      rw [if_pos (show ((0 : ℤ) < (text.data.length : ℤ)) by exact_mod_cast (hdlen ▸ h0))]
      have hslice : pySliceZ text.data (((0 : ℕ) : ℤ))
          (min (((0 : ℕ) : ℤ) + (size : ℤ)) (text.data.length : ℤ)) = text.data := by
        rw [pySliceZ_nat text.data 0 size (Nat.zero_le _), List.drop_zero]
        apply List.take_of_length_le
        omega
      simp only [Nat.cast_zero, zero_add] at hslice
      rw [if_neg (show ¬ ((0 : ℤ) + ((size : ℤ) - (overlap : ℤ)) < (text.data.length : ℤ))
        by omega)]
      rw [show ((0 : ℤ) + (size : ℤ)) = (size : ℤ) from zero_add _]
      rw [hslice]
      by_cases hc : pyStripL text.data = []
      · rw [if_pos hc]
        have hps : pyStrip text = "" := by
          rw [pyStrip, hc]
        rw [if_pos hps]
        rfl
      · rw [if_neg hc]
        have hps : ¬ pyStrip text = "" := by
          rw [pyStrip]
          intro hmk
          apply hc
          have := congrArg String.data hmk
          simpa using this
        rw [if_neg hps]
        rfl

/-- Witness for `C7_chunking` at `size = 3`, `overlap = 2`, texts `"ab"`
and `"x"`. -/
theorem C7_chunking_witness :
    chunk_text "ab" 3 2 = chunkWindowsSpec "ab" 3 2
    ∧ chunk_text "x" 3 2 = if pyStrip "x" = "" then [] else [pyStrip "x"] :=
  ⟨(C7_chunking 3 2 (by decide) (by decide)).1 "ab",
   (C7_chunking 3 2 (by decide) (by decide)).2 "x" (by decide)⟩

/-! ## Claim C9: accepted-answer dedup idempotence -/

theorem isPrefixOf_append_self : ∀ p b : List Char, p.isPrefixOf (p ++ b) = true := by
  intro p
  induction p with
  | nil => intro b; simp [List.isPrefixOf]
  | cons c t ih =>
    intro b
    simp [List.isPrefixOf, ih b]

theorem hasSub_here (p b : List Char) : hasSub p (p ++ b) = true := by
  cases p with
  | nil => cases b <;> simp [hasSub, List.isPrefixOf]
  | cons c t =>
    simp [hasSub, List.isPrefixOf, isPrefixOf_append_self]

theorem hasSub_cons (p s : List Char) (c : Char) (h : hasSub p s = true) :
    hasSub p (c :: s) = true := by
  simp only [hasSub, h]
  simp

theorem hasSub_append_left (a : List Char) {p s : List Char} (h : hasSub p s = true) :
    hasSub p (a ++ s) = true := by
  induction a with
  | nil => simpa using h
  | cons c t ih =>
    simp only [List.cons_append]
    exact hasSub_cons p (t ++ s) c ih

/-- The `Field:` line of an appended block contains the rendered
`Field: {fieldContext}` string. -/
theorem hasSub_inner_field (fc ans hint ts : String) :
    hasSub ("Field: " ++ fc).data ('\n' :: (acceptedInner fc ans hint ts).data) = true := by
  simp only [acceptedInner, String.data_append, List.append_assoc]
  apply hasSub_cons
  rw [← List.append_assoc]
  exact hasSub_here _ _

/-- The `Answer:` line of an appended block contains the rendered
`Answer: {answer}` string. -/
theorem hasSub_inner_answer (fc ans hint ts : String) :
    hasSub ("Answer: " ++ ans).data ('\n' :: (acceptedInner fc ans hint ts).data) = true := by
  simp only [acceptedInner, String.data_append, List.append_assoc]
  apply hasSub_cons
  apply hasSub_append_left
  apply hasSub_append_left
  apply hasSub_append_left
  apply hasSub_append_left
  rw [← List.append_assoc]
  exact hasSub_here _ _

set_option maxRecDepth 40000 in
/-- C9, counterexample: for an answer that itself contains the 60-`'='`
delimiter, the dedup check misses the duplicate — the `Answer:` line is
cut apart by the split — and appending the same pair twice stores TWO
blocks, refuting the claim for arbitrary pairs. -/
theorem C9_counterexample :
    save_accepted_answer none "F" ("A\n" ++ sepLine ++ "\nB") "" "T"
      = some (acceptedBlock "F" ("A\n" ++ sepLine ++ "\nB") "" "T")
    ∧ save_accepted_answer (save_accepted_answer none "F" ("A\n" ++ sepLine ++ "\nB") "" "T")
        "F" ("A\n" ++ sepLine ++ "\nB") "" "T"
      = some (acceptedBlock "F" ("A\n" ++ sepLine ++ "\nB") "" "T"
          ++ acceptedBlock "F" ("A\n" ++ sepLine ++ "\nB") "" "T") := by
  refine ⟨by decide, by decide⟩

/-- C9 (amended): appending the same `(fieldContext, answer)` pair twice
to a fresh log stores exactly one block, PROVIDED the appended block
splits cleanly on the 60-`'='` delimiter (the hypothesis holds whenever
the rendered field/answer/hint/date lines do not themselves contain the
delimiter): the second save finds an entry containing both the rendered
`Field:` and `Answer:` lines and is suppressed. -/
theorem C9_dedup_idempotent (fc ans hint ts : String) (hans : ans ≠ "")
    (hsplit : pySplitSep sepLine.data (acceptedBlock fc ans hint ts).data
      = ["\n".data, '\n' :: (acceptedInner fc ans hint ts).data, "\n".data]) :
    save_accepted_answer (save_accepted_answer none fc ans hint ts) fc ans hint ts
      = save_accepted_answer none fc ans hint ts
    ∧ save_accepted_answer none fc ans hint ts = some (acceptedBlock fc ans hint ts) := by
  have hfirst : save_accepted_answer none fc ans hint ts
      = some (acceptedBlock fc ans hint ts) := by
    rw [save_accepted_answer, if_neg hans]
  refine ⟨?_, hfirst⟩
  rw [hfirst]
  have hany : (pySplitSep sepLine.data (acceptedBlock fc ans hint ts).data).any
      (fun e => hasSub ("Field: " ++ fc).data e && hasSub ("Answer: " ++ ans).data e)
      = true := by
    rw [hsplit]
    simp only [List.any_cons, List.any_nil]
    rw [hasSub_inner_field fc ans hint ts, hasSub_inner_answer fc ans hint ts]
    simp
  rw [save_accepted_answer, if_neg hans]
  simp only [hany]
  simp

set_option maxRecDepth 40000 in
/-- Witness for `C9_dedup_idempotent` at a concrete benign pair. -/
theorem C9_dedup_idempotent_witness :
    save_accepted_answer (save_accepted_answer none "Email" "a@b.com" "" "2024")
        "Email" "a@b.com" "" "2024"
      = save_accepted_answer none "Email" "a@b.com" "" "2024"
    ∧ save_accepted_answer none "Email" "a@b.com" "" "2024"
      = some (acceptedBlock "Email" "a@b.com" "" "2024") :=
  C9_dedup_idempotent "Email" "a@b.com" "" "2024" (by decide) (by decide)
